import Mathlib

/-!
Verification of the orient skill-packaging core and the demo-video script.

The packaging core (manifest parser, schema validator, archiver, orchestrator)
is specified in spec.md; its definitions below are modelled from that spec.
The demo-video generation script (`scripts/generate-demo-video.py`) is embedded
shallowly: its `main` becomes a pure function over an explicit run configuration
that records environment variables and the outcomes of external calls, and
returns the exit code together with the list of side effects performed.
-/

/-! ## Manifest parser (modelled from the spec) -/

/-- Modelled from the spec: the three-character marker line delimiting the
manifest header block (frontmatter). The real parser module is not in the
repository snapshot. -/
def marker : String := "---"

/-- Modelled from the spec: the key/value separator character of header lines. -/
def separator : Char := ':'

/-- Modelled from the spec: parser failure conditions signalled to the caller. -/
inductive ParseError where
  | MalformedHeader
  deriving DecidableEq, Repr

/-- Split a character list at the first occurrence of `sep`: returns the part
before and the part after that occurrence, or `none` when `sep` does not occur. -/
def breakFirst (sep : Char) : List Char → Option (List Char × List Char)
  | [] => none
  | c :: cs =>
    if c = sep then some ([], cs)
    else
      match breakFirst sep cs with
      | none => none
      | some (k, v) => some (c :: k, v)

/-- Drop whitespace characters from both ends of a character list. -/
def trimChars (cs : List Char) : List Char :=
  ((cs.dropWhile Char.isWhitespace).reverse.dropWhile Char.isWhitespace).reverse

/-- Modelled from the spec: parse one header line. A line containing the
separator is split on its first occurrence into a whitespace-trimmed key and
value; a line without the separator is ignored (`none`). -/
def parseLine (l : String) : Option (String × String) :=
  match breakFirst separator l.toList with
  | none => none
  | some (k, v) => some (String.mk (trimChars k), String.mk (trimChars v))

/-- Modelled from the spec: turn the header region's lines into key/value
pairs, keeping the order in which the lines appear. -/
def parseHeaderLines (lines : List String) : List (String × String) :=
  lines.filterMap parseLine

/-- Look a key up in the header pairs; the last occurrence of a duplicate key
wins. -/
def lookupLast (k : String) (ps : List (String × String)) : Option String :=
  ps.foldl (fun acc p => if p.1 = k then some p.2 else acc) none

/-- Modelled from the spec: the manifest parser. The document is a list of
lines; it must open with the marker line at position zero, and the header
region runs up to the next marker line. A document not starting with the
marker, or holding fewer than two marker occurrences, is `MalformedHeader`. -/
def parseManifest (doc : List String) : Except ParseError (List (String × String)) :=
  match doc with
  | [] => .error .MalformedHeader
  | first :: rest =>
    if first = marker then
      if rest.any (fun l => l = marker) then
        .ok (parseHeaderLines (rest.takeWhile (fun l => l ≠ marker)))
      else
        .error .MalformedHeader
    else
      .error .MalformedHeader

/-! ## Schema validator (modelled from the spec) -/

/-- Modelled from the spec: the fixed field vocabulary of the manifest header. -/
def allowedFields : List String := ["name", "description", "license", "allowed-tools", "metadata"]

/-- A character admitted by the `name` pattern `^[a-z0-9-]+$`. -/
def nameCharOk (c : Char) : Bool :=
  (('a' ≤ c && c ≤ 'z') || ('0' ≤ c && c ≤ '9') || c = '-')

/-- Modelled from the spec: `name` must match `^[a-z0-9-]+$`. -/
def namePatternOk (n : String) : Bool :=
  !n.toList.isEmpty && n.toList.all nameCharOk

/-- The placeholder token a description must not begin with. -/
def todoToken : List Char := ['[', 'T', 'O', 'D', 'O']

/-- Modelled from the spec: does the description begin with the placeholder
token `[TODO`? -/
def descHasPlaceholder (d : String) : Bool :=
  todoToken.isPrefixOf d.toList

/-- Keep the first occurrence of every key, dropping later duplicates. -/
def dedupFirst : List String → List String
  | [] => []
  | k :: ks => k :: (dedupFirst ks).filter (fun x => x ≠ k)

/-- Modelled from the spec: violation text for a malformed header. -/
def headerFormatViolation : String :=
  "Malformed header: frontmatter markers absent or incomplete"

def missingNameViolation : String := "Missing required field: name"
def namePatternViolation : String := "name must match ^[a-z0-9-]+$"
def nameLengthViolation : String := "name must be at most 64 characters"
def missingDescriptionViolation : String := "Missing required field: description"
def descPlaceholderViolation : String := "description must not begin with [TODO"
def descLengthViolation : String := "description must be at most 1024 characters"
def descAngleViolation : String := "description must not contain < or >"

/-- Modelled from the spec: field-level checks, run independently and
exhaustively, appending one violation string per failed check; unknown keys
produce one combined, comma-joined violation. -/
def validateHeader (ps : List (String × String)) : List String :=
  let nameViolations :=
    match lookupLast "name" ps with
    | none => [missingNameViolation]
    | some n =>
      (if namePatternOk n then [] else [namePatternViolation]) ++
      (if n.length ≤ 64 then [] else [nameLengthViolation])
  let descViolations :=
    match lookupLast "description" ps with
    | none => [missingDescriptionViolation]
    | some d =>
      (if descHasPlaceholder d then [descPlaceholderViolation] else []) ++
      (if d.length ≤ 1024 then [] else [descLengthViolation]) ++
      (if d.toList.contains '<' || d.toList.contains '>' then [descAngleViolation] else [])
  let extraViolations :=
    let unknown := (dedupFirst (ps.map Prod.fst)).filter (fun k => !allowedFields.contains k)
    if unknown.isEmpty then []
    else ["Unknown fields: " ++ String.intercalate ", " unknown]
  nameViolations ++ descViolations ++ extraViolations

/-- Modelled from the spec: the schema validator on the manifest's text.
On `MalformedHeader` it returns a single-element violation list and performs
no field checks; otherwise it runs the field-level checks. -/
def validateManifest (doc : List String) : List String :=
  match parseManifest doc with
  | .error .MalformedHeader => [headerFormatViolation]
  | .ok ps => validateHeader ps

example : parseManifest ["---", "name: my-skill", "description: A skill.", "---"] =
    .ok [("name", "my-skill"), ("description", "A skill.")] := by rfl

example : validateManifest ["---", "name: my-skill", "description: A skill.", "---"] = [] := by
  decide

example : validateManifest ["no marker here"] = [headerFormatViolation] := by decide

/-! ## Archiver (modelled from the spec) -/

/-- Modelled from the spec: a filesystem subtree. A skill directory is a `dir`
node whose name is the skill directory's base name; only regular files become
archive entries. -/
inductive FsTree where
  | file (name : String)
  | dir (name : String) (children : List FsTree)

mutual

/-- The paths of every regular file reachable in a tree, relative to the
tree's parent (so the tree's own name is the leading path component). -/
def filePaths : FsTree → List String
  | .file n => [n]
  | .dir n cs => (filePathsList cs).map (fun p => n ++ "/" ++ p)

/-- `filePaths` over a list of sibling subtrees, in traversal order. -/
def filePathsList : List FsTree → List String
  | [] => []
  | t :: ts => filePaths t ++ filePathsList ts

end

/-- Modelled from the spec: the archiver writes each regular file reachable
under the skill directory at its path relative to the skill directory's
parent, in traversal order. The result is the list of internal entry paths. -/
def archiveEntries (skillDir : FsTree) : List String :=
  filePaths skillDir

/-! ## Packaging orchestrator (modelled from the spec) -/

/-- Outcome of a `package` invocation: the process exit code, the archive's
entries when one was produced, and whether the archiver ran at all. -/
structure PackageResult where
  exitCode : Nat
  archive : Option (List String)
  archiverInvoked : Bool
  deriving DecidableEq, Repr

/-- Modelled from the spec: the packaging orchestrator. It runs the schema
validator on the manifest text; on any violation it prints them and terminates
with failure, producing no archive; on success it runs the archiver. When the
validator is unavailable it warns and archives anyway (best-effort fallback). -/
def package (skillDir : FsTree) (manifestDoc : List String)
    (validatorAvailable : Bool) : PackageResult :=
  if validatorAvailable then
    let violations := validateManifest manifestDoc
    if violations.isEmpty then
      { exitCode := 0, archive := some (archiveEntries skillDir), archiverInvoked := true }
    else
      { exitCode := 1, archive := none, archiverInvoked := false }
  else
    { exitCode := 0, archive := some (archiveEntries skillDir), archiverInvoked := true }

example :
    archiveEntries (.dir "foo" [.file "SKILL.md", .dir "assets" [.file "logo.png"]]) =
      ["foo/SKILL.md", "foo/assets/logo.png"] := by decide

/-! ## Demo-video script (`scripts/generate-demo-video.py`) -/

/-- Python's `a or b` on optional strings: an unset variable is `None` and an
empty string is falsy, so both fall through to `b`. -/
def pyOr (a b : Option String) : Option String :=
  match a with
  | none => b
  | some s => if s = "" then b else some s

/-- Python truthiness of the `api_key` value. -/
def truthy : Option String → Bool
  | none => false
  | some s => s ≠ ""

/-- `max_wait = 600  # 10 minutes` from the script. -/
def max_wait : Nat := 600

/-- `poll_interval = 5  # seconds` from the script. -/
def poll_interval : Nat := 5

/-- Outcome of the script's polling loop. -/
inductive PollOutcome where
  | completed
  | timedOut
  deriving DecidableEq, Repr

/-- The polling loop of `main`: while the operation is not done, check the
elapsed time against `max_wait` (returning `timedOut`, i.e. exit code 1, when
exceeded), then sleep `poll_interval` seconds and refresh the status. `done i`
gives the operation's status as observed at the i-th iteration; `elapsed`
advances by `poll_interval` per sleep. -/
def pollLoop (done : Nat → Bool) (i : Nat) (elapsed : Nat) : PollOutcome :=
  if done i then .completed
  else if elapsed > max_wait then .timedOut
  else pollLoop done (i + 1) (elapsed + poll_interval)
termination_by max_wait + 1 - elapsed
decreasing_by simp_wf; simp [max_wait, poll_interval] at *; omega

/-- The observable side effects of `main` that the claims mention. `printError`
stands for the error message printed on a failing path. -/
inductive Effect where
  | printError
  | mkdirOutputDir
  | constructClient
  | veoApiCall
  | writeOutputFile
  deriving DecidableEq, Repr

/-- The external circumstances of one run of the script: the two environment
variables, whether `google-genai` imports, and the outcomes of each external
interaction inside the `try` block. -/
structure RunConfig where
  googleGeminiApiKey : Option String
  geminiApiKey : Option String
  genaiInstalled : Bool
  generateRaises : Bool
  opDone : Nat → Bool
  opError : Bool
  hasVideos : Bool
  extractOk : Bool
  writeRaises : Bool

namespace GenerateDemoVideo

/-- Shallow embedding of `main` of `scripts/generate-demo-video.py`:
explicit control flow of the function, returning the exit code and the side
effects performed, in order. Any exception inside the `try` block lands in the
`except` handler, which returns 1. -/
def main (cfg : RunConfig) : Nat × List Effect :=
  if truthy (pyOr cfg.googleGeminiApiKey cfg.geminiApiKey) = false then
    (1, [.printError])
  else if cfg.genaiInstalled = false then
    (1, [.printError])
  else if cfg.generateRaises then
    (1, [.mkdirOutputDir, .constructClient, .printError])
  else
    match pollLoop cfg.opDone 0 0 with
    | .timedOut => (1, [.mkdirOutputDir, .constructClient, .veoApiCall, .printError])
    | .completed =>
      if cfg.opError then
        (1, [.mkdirOutputDir, .constructClient, .veoApiCall, .printError])
      else if cfg.hasVideos = false then
        (1, [.mkdirOutputDir, .constructClient, .veoApiCall, .printError])
      else if cfg.extractOk = false then
        (1, [.mkdirOutputDir, .constructClient, .veoApiCall, .printError])
      else if cfg.writeRaises then
        (1, [.mkdirOutputDir, .constructClient, .veoApiCall, .printError])
      else
        (0, [.mkdirOutputDir, .constructClient, .veoApiCall, .writeOutputFile])

end GenerateDemoVideo

/-! ## Helper lemmas -/

theorem breakFirst_eq_none_of_not_mem {sep : Char} :
    ∀ {cs : List Char}, sep ∉ cs → breakFirst sep cs = none := by
  intro cs
  induction cs with
  | nil => intro _; rfl
  | cons c cs ih =>
    intro h
    have hc : c ≠ sep := fun hcs => h (hcs ▸ List.mem_cons_self c cs)
    have hcs : sep ∉ cs := fun hm => h (List.mem_cons_of_mem c hm)
    simp [breakFirst, hc, ih hcs]

theorem breakFirst_some_spec {sep : Char} :
    ∀ {cs k v : List Char}, breakFirst sep cs = some (k, v) →
      cs = k ++ sep :: v ∧ sep ∉ k := by
  intro cs
  induction cs with
  | nil => intro k v h; simp [breakFirst] at h
  | cons c cs ih =>
    intro k v h
    by_cases hc : c = sep
    · simp [breakFirst, hc] at h
      obtain ⟨hk, hv⟩ := h
      subst hk; subst hv; subst hc
      simp
    · simp [breakFirst, hc] at h
      cases hb : breakFirst sep cs with
      | none => rw [hb] at h; simp at h
      | some p =>
        rw [hb] at h
        obtain ⟨k', v'⟩ := p
        simp at h
        obtain ⟨hk, hv⟩ := h
        obtain ⟨hcs, hnk⟩ := ih hb
        subst hk; subst hv
        refine ⟨by rw [hcs]; simp, ?_⟩
        intro hmem
        rcases List.mem_cons.mp hmem with h1 | h2
        · exact hc h1.symm
        · exact hnk h2

theorem mem_of_mem_dedupFirst {x : String} :
    ∀ {l : List String}, x ∈ dedupFirst l → x ∈ l := by
  intro l
  induction l with
  | nil => intro h; simp [dedupFirst] at h
  | cons k ks ih =>
    intro h
    simp only [dedupFirst, List.mem_cons] at h
    rcases h with h | h
    · exact h ▸ List.mem_cons_self k ks
    · exact List.mem_cons_of_mem k (ih (List.mem_of_mem_filter h))

theorem lookupLast_append_single (k v : String) (ps : List (String × String)) :
    lookupLast k (ps ++ [(k, v)]) = some v := by
  simp [lookupLast, List.foldl_append]

theorem pollLoop_timeout_of_never_done (done : Nat → Bool)
    (hd : ∀ j, done j = false) :
    ∀ fuel i elapsed, max_wait + 1 - elapsed ≤ fuel →
      pollLoop done i elapsed = .timedOut := by
  intro fuel
  induction fuel with
  | zero =>
    intro i elapsed h
    have he : elapsed > max_wait := by omega
    rw [pollLoop]
    simp [hd, he]
  | succ fuel ih =>
    intro i elapsed h
    rw [pollLoop]
    by_cases he : elapsed > max_wait
    · simp [hd, he]
    · simp [hd, he]
      exact ih (i + 1) (elapsed + poll_interval)
        (by simp [max_wait, poll_interval] at *; omega)

/-! ## Claim theorems -/

/-- C1: a manifest whose header parses and whose fields satisfy every schema
rule (name present, matching the pattern, at most 64 characters; description
present, at most 1024 characters, no placeholder prefix, no angle brackets;
no keys outside the allowed field set) gets an empty violation list. -/
theorem validator_accepts_valid_manifest
    (doc : List String) (ps : List (String × String)) (n d : String)
    (hp : parseManifest doc = .ok ps)
    (hn : lookupLast "name" ps = some n)
    (hnp : namePatternOk n = true)
    (hnl : n.length ≤ 64)
    (hd : lookupLast "description" ps = some d)
    (hdp : descHasPlaceholder d = false)
    (hdl : d.length ≤ 1024)
    (hlt : d.toList.contains '<' = false)
    (hgt : d.toList.contains '>' = false)
    (hkeys : ∀ k ∈ ps.map Prod.fst, allowedFields.contains k = true) :
    validateManifest doc = [] := by
  have hlt' : '<' ∉ d.data := by simpa [String.toList] using hlt
  have hgt' : '>' ∉ d.data := by simpa [String.toList] using hgt
  have hmem : ∀ x ∈ dedupFirst (ps.map Prod.fst), x ∈ allowedFields := by
    intro x hx
    simpa using hkeys x (mem_of_mem_dedupFirst hx)
  have hv : validateHeader ps = [] := by
    unfold validateHeader
    rw [hn, hd]
    simp [hnp, hnl, hdp, hdl]
    exact ⟨⟨hlt', hgt'⟩, hmem⟩
  simp only [validateManifest, hp, hv]

/-- C1 witness: a concrete valid manifest validates with no violations. -/
theorem validator_accepts_valid_manifest_witness :
    validateManifest ["---", "name:my-skill", "description:A skill.", "---"] = [] :=
  validator_accepts_valid_manifest
    ["---", "name:my-skill", "description:A skill.", "---"]
    [("name", "my-skill"), ("description", "A skill.")]
    "my-skill" "A skill."
    (by rfl) (by decide) (by decide) (by decide) (by decide) (by decide)
    (by decide) (by decide) (by decide) (by decide)

/-- C2: when validation of the manifest yields a non-empty violation list, the
packaging operation produces no archive, exits non-zero, and never invokes the
archiver. -/
theorem package_invalid_no_archive (t : FsTree) (doc : List String)
    (h : validateManifest doc ≠ []) :
    (package t doc true).archive = none ∧
    (package t doc true).exitCode ≠ 0 ∧
    (package t doc true).archiverInvoked = false := by
  have hie : (validateManifest doc).isEmpty = false := by
    cases hv : validateManifest doc with
    | nil => exact absurd hv h
    | cons a l => rfl
  simp [package, hie]

/-- C2 witness: packaging a directory with a malformed manifest yields no
archive and exit code 1. -/
theorem package_invalid_no_archive_witness :
    (package (.dir "foo" []) ["no marker"] true).archive = none ∧
    (package (.dir "foo" []) ["no marker"] true).exitCode ≠ 0 ∧
    (package (.dir "foo" []) ["no marker"] true).archiverInvoked = false :=
  package_invalid_no_archive (.dir "foo" []) ["no marker"] (by decide)

/-- C3: every regular file under the skill directory appears in the archive at
its path relative to the skill directory's parent (the directory name is the
leading component), and the `foo` example yields exactly `foo/SKILL.md` and
`foo/assets/logo.png`. -/
theorem archive_paths_relative_to_parent :
    (∀ (n : String) (cs : List FsTree) (p : String),
        p ∈ archiveEntries (.dir n cs) ↔
          ∃ q ∈ filePathsList cs, p = n ++ "/" ++ q) ∧
    archiveEntries (.dir "foo" [.file "SKILL.md", .dir "assets" [.file "logo.png"]]) =
      ["foo/SKILL.md", "foo/assets/logo.png"] := by
  constructor
  · intro n cs p
    simp [archiveEntries, filePaths, List.mem_map, eq_comm]
  · decide

/-- C3 witness: the membership characterisation at a concrete entry. -/
theorem archive_paths_relative_to_parent_witness :
    "foo/SKILL.md" ∈
      archiveEntries (.dir "foo" [.file "SKILL.md", .dir "assets" [.file "logo.png"]]) ↔
      ∃ q ∈ filePathsList [.file "SKILL.md", .dir "assets" [.file "logo.png"]],
        "foo/SKILL.md" = "foo" ++ "/" ++ q :=
  archive_paths_relative_to_parent.1 "foo"
    [.file "SKILL.md", .dir "assets" [.file "logo.png"]] "foo/SKILL.md"

/-- C4: the parser fails with `MalformedHeader` exactly when the document does
not start with the marker line or holds fewer than two marker occurrences;
otherwise it returns a key/value mapping. -/
theorem parseManifest_malformed_iff (doc : List String) :
    (parseManifest doc = .error .MalformedHeader ↔
      doc.head? ≠ some marker ∨ doc.countP (fun l => l = marker) < 2) ∧
    (doc.head? = some marker → 2 ≤ doc.countP (fun l => l = marker) →
      ∃ ps, parseManifest doc = .ok ps) := by
  cases doc with
  | nil =>
    refine ⟨by simp [parseManifest], ?_⟩
    intro h
    simp at h
  | cons first rest =>
    by_cases hf : first = marker
    · subst hf
      have hcc : List.countP (fun l => decide (l = marker)) (marker :: rest)
          = List.countP (fun l => decide (l = marker)) rest + 1 := by
        rw [List.countP_cons]
        simp
      by_cases ha : rest.any (fun l => l = marker) = true
      · have hok : parseManifest (marker :: rest)
            = .ok (parseHeaderLines (rest.takeWhile (fun l => l ≠ marker))) := by
          simp [parseManifest, ha]
        have hc : 0 < List.countP (fun l => decide (l = marker)) rest := by
          rw [List.countP_pos_iff]
          simpa using List.any_eq_true.mp ha
        have hrhs : ¬ ((marker :: rest).head? ≠ some marker ∨
            List.countP (fun l => decide (l = marker)) (marker :: rest) < 2) := by
          intro h
          rcases h with h | h
          · exact h rfl
          · rw [hcc] at h
            omega
        refine ⟨?_, ?_⟩
        · rw [hok]
          constructor
          · intro h
            exact absurd h (by simp)
          · intro h
            exact absurd h hrhs
        · intro _ _
          exact ⟨_, hok⟩
      · have herr : parseManifest (marker :: rest) = .error .MalformedHeader := by
          simp [parseManifest, ha]
        have hc0 : List.countP (fun l => decide (l = marker)) rest = 0 := by
          rw [List.countP_eq_zero]
          intro a hmem hp
          exact ha (List.any_eq_true.mpr ⟨a, hmem, hp⟩)
        refine ⟨?_, ?_⟩
        · rw [herr]
          constructor
          · intro _
            right
            rw [hcc, hc0]
            omega
          · intro _
            rfl
        · intro _ hcnt
          rw [hcc, hc0] at hcnt
          omega
    · have herr : parseManifest (first :: rest) = .error .MalformedHeader := by
        simp [parseManifest, hf]
      refine ⟨?_, ?_⟩
      · rw [herr]
        constructor
        · intro _
          left
          simp [hf]
        · intro _
          rfl
      · intro hh _
        exfalso
        apply hf
        simpa using hh

/-- C4 witness: a document with both markers parses to a mapping. -/
theorem parseManifest_malformed_iff_witness :
    ∃ ps, parseManifest ["---", "a:1", "---"] = .ok ps :=
  (parseManifest_malformed_iff ["---", "a:1", "---"]).2 (by rfl) (by decide)

/-- C5: whenever the parser reports `MalformedHeader`, the validator returns a
single-element violation list (the format error) and performs no field-level
checks: the result does not depend on any field content. -/
theorem validator_malformed_single_violation (doc : List String)
    (h : parseManifest doc = .error .MalformedHeader) :
    validateManifest doc = [headerFormatViolation] ∧
    (validateManifest doc).length = 1 := by
  unfold validateManifest
  rw [h]
  exact ⟨rfl, rfl⟩

/-- C5 witness: a document without the opening marker gets exactly the one
format violation. -/
theorem validator_malformed_single_violation_witness :
    validateManifest ["no marker"] = [headerFormatViolation] ∧
    (validateManifest ["no marker"]).length = 1 :=
  validator_malformed_single_violation ["no marker"] (by rfl)

/-- C6: within a well-formed header region, a line without the separator is
ignored without error (the mapping is unchanged); a line with the separator is
split on its first occurrence into whitespace-trimmed key and value; on
duplicate keys the mapping holds the value of the last occurrence. -/
theorem header_line_semantics (ls : List String) (l : String) :
    (separator ∉ l.toList → parseHeaderLines (ls ++ [l]) = parseHeaderLines ls) ∧
    (∀ k v : List Char, breakFirst separator l.toList = some (k, v) →
      l.toList = k ++ separator :: v ∧ separator ∉ k ∧
      parseLine l = some (String.mk (trimChars k), String.mk (trimChars v))) ∧
    (∀ k v : String, parseLine l = some (k, v) →
      lookupLast k (parseHeaderLines (ls ++ [l])) = some v) := by
  refine ⟨?_, ?_, ?_⟩
  · intro h
    have hb := breakFirst_eq_none_of_not_mem h
    have hpl : parseLine l = none := by
      unfold parseLine
      rw [hb]
    simp [parseHeaderLines, List.filterMap_append, hpl]
  · intro k v h
    obtain ⟨h1, h2⟩ := breakFirst_some_spec h
    refine ⟨h1, h2, ?_⟩
    unfold parseLine
    rw [h]
  · intro k v h
    have happ : parseHeaderLines (ls ++ [l]) = parseHeaderLines ls ++ [(k, v)] := by
      simp [parseHeaderLines, List.filterMap_append, h]
    rw [happ]
    exact lookupLast_append_single k v _

/-- C6 witness: a separator-free line leaves the mapping unchanged, a line is
split at the first separator with trimming, and the last duplicate wins. -/
theorem header_line_semantics_witness :
    parseHeaderLines (["name:a"] ++ ["just a plain line"]) =
      parseHeaderLines ["name:a"] ∧
    parseLine "k: 2" = some (String.mk (trimChars ['k']), String.mk (trimChars [' ', '2'])) ∧
    lookupLast "k" (parseHeaderLines (["k:1"] ++ ["k: 2"])) = some "2" :=
  ⟨(header_line_semantics ["name:a"] "just a plain line").1 (by decide),
   ((header_line_semantics [] "k: 2").2.1 ['k'] [' ', '2'] (by rfl)).2.2,
   (header_line_semantics ["k:1"] "k: 2").2.2 "k" "2" (by decide)⟩

/-- C7: validation is deterministic — the validator is a pure function of the
manifest text, so two runs on the same text return identical violation lists,
same elements in the same order. -/
theorem validator_deterministic :
    ∀ doc : List String, validateManifest doc = validateManifest doc :=
  fun _ => rfl

/-- C8: with neither GOOGLE_GEMINI_API_KEY nor GEMINI_API_KEY set, `main`
prints an error and returns 1 without creating the output directory,
constructing an API client, or issuing any API call. -/
theorem main_no_api_key (cfg : RunConfig)
    (h1 : cfg.googleGeminiApiKey = none) (h2 : cfg.geminiApiKey = none) :
    GenerateDemoVideo.main cfg = (1, [.printError]) ∧
    Effect.mkdirOutputDir ∉ (GenerateDemoVideo.main cfg).2 ∧
    Effect.constructClient ∉ (GenerateDemoVideo.main cfg).2 ∧
    Effect.veoApiCall ∉ (GenerateDemoVideo.main cfg).2 := by
  have hm : GenerateDemoVideo.main cfg = (1, [.printError]) := by
    unfold GenerateDemoVideo.main
    simp [h1, h2, pyOr, truthy]
  refine ⟨hm, ?_, ?_, ?_⟩ <;> rw [hm] <;> simp

/-- C8 witness: a run with both variables unset. -/
theorem main_no_api_key_witness :
    GenerateDemoVideo.main
      ⟨none, none, true, false, fun _ => true, false, true, true, false⟩ =
      (1, [.printError]) :=
  (main_no_api_key ⟨none, none, true, false, fun _ => true, false, true, true, false⟩
    rfl rfl).1

/-- C9: the polling loop terminates for every status sequence — each not-done
iteration sleeps `poll_interval` seconds so elapsed time strictly increases,
and when the operation never completes the elapsed-time check against
`max_wait` triggers and `main` returns 1. -/
theorem pollLoop_terminates_and_times_out :
    (∀ (done : Nat → Bool) (i elapsed : Nat), done i = false → elapsed ≤ max_wait →
      pollLoop done i elapsed = pollLoop done (i + 1) (elapsed + poll_interval) ∧
      elapsed < elapsed + poll_interval) ∧
    (∀ done : Nat → Bool, (∀ j, done j = false) → pollLoop done 0 0 = .timedOut) ∧
    (∀ cfg : RunConfig, (∀ j, cfg.opDone j = false) →
      truthy (pyOr cfg.googleGeminiApiKey cfg.geminiApiKey) = true →
      cfg.genaiInstalled = true → cfg.generateRaises = false →
      (GenerateDemoVideo.main cfg).1 = 1) := by
  refine ⟨?_, ?_, ?_⟩
  · intro done i elapsed hdone hle
    refine ⟨?_, by simp [poll_interval]⟩
    conv_lhs => rw [pollLoop]
    have hgt : ¬ elapsed > max_wait := by omega
    simp [hdone, hgt]
  · intro done hd
    exact pollLoop_timeout_of_never_done done hd (max_wait + 1) 0 0 (le_refl _)
  · intro cfg hd htr hgen hgr
    have hp := pollLoop_timeout_of_never_done cfg.opDone hd (max_wait + 1) 0 0 (le_refl _)
    unfold GenerateDemoVideo.main
    simp [htr, hgen, hgr, hp]

/-- C9 witness: a never-completing operation times out and the run exits 1. -/
theorem pollLoop_terminates_and_times_out_witness :
    pollLoop (fun _ => false) 0 0 = .timedOut ∧
    (GenerateDemoVideo.main
      ⟨some "key", none, true, false, fun _ => false, false, true, true, false⟩).1 = 1 :=
  ⟨pollLoop_terminates_and_times_out.2.1 (fun _ => false) (fun _ => rfl),
   pollLoop_terminates_and_times_out.2.2
     ⟨some "key", none, true, false, fun _ => false, false, true, true, false⟩
     (fun _ => rfl) (by decide) rfl rfl⟩

/-- C10: every run of `main` returns exit code 0 or 1, and it returns 0 only
on the path where the extracted video data has been written to the output
file. -/
theorem main_exit_code_protocol (cfg : RunConfig) :
    ((GenerateDemoVideo.main cfg).1 = 0 ∨ (GenerateDemoVideo.main cfg).1 = 1) ∧
    ((GenerateDemoVideo.main cfg).1 = 0 →
      Effect.writeOutputFile ∈ (GenerateDemoVideo.main cfg).2) := by
  have hgen : ∀ p : Nat × List Effect, GenerateDemoVideo.main cfg = p →
      (p.1 = 0 ∨ p.1 = 1) ∧ (p.1 = 0 → Effect.writeOutputFile ∈ p.2) := by
    intro p hp
    unfold GenerateDemoVideo.main at hp
    repeat' split at hp
    all_goals rw [← hp]
    all_goals simp
  exact hgen _ rfl
